import Mathlib

/-!
Shallow embedding of `rqt_bag/src/rqt_bag/rosbag2.py` (class `Rosbag2`).

The Python class wraps a rosbag2 storage file: its metadata (bag size, start
time, duration, per-topic metadata) and a sqlite database with two tables,
`topics(id, name, type, ...)` and `messages(topic_id, data, timestamp)`.
We model the backing file contents explicitly (`BagFile`), the handle state
(`Rosbag2`), and the three SQL retrieval queries as pure functions over the
modelled tables.  Timestamps are integer nanoseconds (`Int`); payloads are
byte lists.  Python attribute access on an attribute that was never set
raises `AttributeError`; methods that can hit that path return
`Except PyError`.
-/

namespace Rosbag2Model

open List

/-- One result row of the retrieval queries: the `Entry` namedtuple
`(topic, data, timestamp)` built in `_execute_sql_query`. -/
structure Entry where
  topic : String
  data : List Nat
  timestamp : Int
deriving Repr, DecidableEq

/-- A row of the sqlite `topics` table. -/
structure TopicRow where
  id : Nat
  name : String
  type : String
deriving Repr, DecidableEq

/-- A row of the sqlite `messages` table. -/
structure MessageRow where
  topic_id : Nat
  data : List Nat
  timestamp : Int
deriving Repr, DecidableEq

/-- The sqlite database backing a bag. -/
structure Db where
  topics : List TopicRow
  messages : List MessageRow
deriving Repr, DecidableEq

/-- `rosbag2_py` topic metadata (the fields this module uses). -/
structure TopicMetadata where
  name : String
  type : String
  serialization_format : String
deriving Repr, DecidableEq

/-- One element of `metadata.topics_with_message_count`. -/
structure TopicInformation where
  topic_metadata : TopicMetadata
  message_count : Nat
deriving Repr, DecidableEq

/-- `reader.get_metadata()` (the fields this module uses). -/
structure BagMetadata where
  bag_size : Nat
  starting_time : Int
  duration : Int
  topics_with_message_count : List TopicInformation
deriving Repr, DecidableEq

/-- Contents found at `bag_path`: the metadata record and the database. -/
structure BagFile where
  metadata : BagMetadata
  db : Db
deriving Repr, DecidableEq

/-- A Python dict from topic name to metadata, as an insertion-ordered
association list (Python 3.7+ dict semantics). -/
abbrev TopicMetadataMap := List (String × TopicMetadata)

/-- Python `k in d` for the modelled dict. -/
def dictContains (m : TopicMetadataMap) (k : String) : Bool :=
  m.any (fun p => p.1 == k)

/-- Python `d[k] = v`: overwrite in place if the key exists, else append. -/
def dictInsert (m : TopicMetadataMap) (k : String) (v : TopicMetadata) :
    TopicMetadataMap :=
  if dictContains m k then m.map (fun p => if p.1 == k then (p.1, v) else p)
  else m ++ [(k, v)]

/-- The dict comprehension in `__init__`:
`{t_info.topic_metadata.name: t_info.topic_metadata for t_info in
self.metadata.topics_with_message_count}`. -/
def buildTopicMetadataMap (tis : List TopicInformation) : TopicMetadataMap :=
  tis.foldl (fun m ti => dictInsert m ti.topic_metadata.name ti.topic_metadata) []

/-- Exceptions the modelled code paths can raise.  `attributeError` models
Python's `AttributeError` (access to an attribute never set, which happens
for `metadata`, `topic_metadata_map` and `db_name` on a handle constructed
with `recording=True`).  `wrongModeError` is the `WrongModeError` kind named
by the specification's error taxonomy; the code never raises it, but we need
it to state the spec's claim. -/
inductive PyError
  | attributeError
  | wrongModeError
deriving Repr, DecidableEq

abbrev PyResult (α : Type) := Except PyError α

/-- The state of a `Rosbag2` handle after `__init__`.  `reader` records
whether `self.reader` is non-`None`; the other three attributes are `none`
when they were never assigned (the `recording=True` branch is a TODO `pass`
in the source). -/
structure Rosbag2 where
  reader : Bool
  metadata : Option BagMetadata
  topic_metadata_map : Option TopicMetadataMap
  db : Option Db
deriving Repr, DecidableEq

/-- `Rosbag2.__init__(bag_path, recording=...)`.  In read mode the reader is
opened and metadata, the topic map and the database name are set; in
recording mode nothing is set up. -/
def Rosbag2.init (bag_path : BagFile) (recording : Bool) : Rosbag2 :=
  if recording then
    { reader := false, metadata := none, topic_metadata_map := none, db := none }
  else
    { reader := true
      metadata := some bag_path.metadata
      topic_metadata_map :=
        some (buildTopicMetadataMap bag_path.metadata.topics_with_message_count)
      db := some bag_path.db }

/-- `Rosbag2.size`. -/
def Rosbag2.size (bag : Rosbag2) : PyResult Nat :=
  match bag.metadata with
  | none => .error .attributeError
  | some md => .ok md.bag_size

/-- `Rosbag2.get_earliest_timestamp`. -/
def Rosbag2.get_earliest_timestamp (bag : Rosbag2) : PyResult Int :=
  match bag.metadata with
  | none => .error .attributeError
  | some md => .ok md.starting_time

/-- `Rosbag2.get_latest_timestamp`. -/
def Rosbag2.get_latest_timestamp (bag : Rosbag2) : PyResult Int :=
  match bag.metadata with
  | none => .error .attributeError
  | some md => .ok (md.starting_time + md.duration)

/-- `Rosbag2.get_topics`: `sorted(self.topic_metadata_map.keys())`.  Python
compares strings lexicographically by code point, which is the
lexicographic order on the underlying character lists. -/
def Rosbag2.get_topics (bag : Rosbag2) : PyResult (List String) :=
  match bag.topic_metadata_map with
  | none => .error .attributeError
  | some m => .ok ((m.map Prod.fst).mergeSort (fun a b => decide (a.data ≤ b.data)))

/-- `Rosbag2.get_topic_type`: `None` when the name is not a key of
`topic_metadata_map`, else `topic_metadata_map[topic].type`. -/
def Rosbag2.get_topic_type (bag : Rosbag2) (topic : String) :
    PyResult (Option String) :=
  match bag.topic_metadata_map with
  | none => .error .attributeError
  | some m => .ok ((m.lookup topic).map (·.type))

/-- `Rosbag2.get_topic_metadata`. -/
def Rosbag2.get_topic_metadata (bag : Rosbag2) (topic : String) :
    PyResult (Option TopicMetadata) :=
  match bag.topic_metadata_map with
  | none => .error .attributeError
  | some m => .ok (m.lookup topic)

/-- `topics_by_type.setdefault(topic.type, []).append(name)` on the modelled
dict from type name to list of topic names. -/
def tbtInsert (m : List (String × List String)) (ty name : String) :
    List (String × List String) :=
  if m.any (fun p => p.1 == ty) then
    m.map (fun p => if p.1 == ty then (p.1, p.2 ++ [name]) else p)
  else m ++ [(ty, [name])]

/-- `Rosbag2.get_topics_by_type`. -/
def Rosbag2.get_topics_by_type (bag : Rosbag2) :
    PyResult (List (String × List String)) :=
  match bag.topic_metadata_map with
  | none => .error .attributeError
  | some m => .ok (m.foldl (fun acc p => tbtInsert acc p.2.type p.1) [])

/-- The rows of
`SELECT topics.name, data, timestamp FROM messages JOIN topics ON
messages.topic_id = topics.id` (inner join, nested-loop order). -/
def Db.joinedEntries (db : Db) : List Entry :=
  db.messages.flatMap (fun msg =>
    (db.topics.filter (fun tr => tr.id == msg.topic_id)).map
      (fun tr => { topic := tr.name, data := msg.data, timestamp := msg.timestamp }))

/-- The variable part of each query string handed to `_execute_sql_query`:
a predicate on `timestamp`, the `ORDER BY messages.timestamp` direction, and
an optional `LIMIT`. -/
structure SqlQuery where
  pred : Int → Bool
  desc : Bool
  limit : Option Nat

/-- `ORDER BY messages.timestamp [DESC]` over the joined rows. -/
def orderByTimestamp (desc : Bool) (l : List Entry) : List Entry :=
  if desc then l.mergeSort (fun a b => decide (b.timestamp ≤ a.timestamp))
  else l.mergeSort (fun a b => decide (a.timestamp ≤ b.timestamp))

/-- `LIMIT n` when present. -/
def applyLimit (lim : Option Nat) (l : List Entry) : List Entry :=
  match lim with
  | none => l
  | some n => l.take n

/-- The `WHERE` clause: the optional `topics.name="{topic}" AND ` prefix
conjoined with the timestamp predicate. -/
def entryMatches (topicFilter : Option String) (pred : Int → Bool)
    (e : Entry) : Bool :=
  (match topicFilter with
   | some t => e.topic == t
   | none => true) && pred e.timestamp

/-- Running the assembled SQL statement against the database file
(`sqlite3.connect(self.db_name)` then `cursor.execute(...)`). -/
def Rosbag2.run_query (bag : Rosbag2) (q : SqlQuery) (topicFilter : Option String) :
    PyResult (List Entry) :=
  match bag.db with
  | none => .error .attributeError
  | some db =>
    .ok (applyLimit q.limit (orderByTimestamp q.desc
      (db.joinedEntries.filter (entryMatches topicFilter q.pred))))

/-- `Rosbag2._execute_sql_query(sql_query, topic)`: if a topic is requested
and is not in `topic_metadata_map`, return `[]` without touching the
database; otherwise execute the query (with the topic name filter appended
when a topic was requested). -/
def Rosbag2.execute_sql_query (bag : Rosbag2) (q : SqlQuery)
    (topic : Option String) : PyResult (List Entry) :=
  match topic with
  | some t =>
    match bag.topic_metadata_map with
    | none => .error .attributeError
    | some tmm =>
      if dictContains tmm t then bag.run_query q (some t) else .ok []
  | none => bag.run_query q none

/-- `Rosbag2.get_entry(timestamp, topic)`: `None` when there is no reader
(write mode), else `timestamp<={t} ORDER BY messages.timestamp DESC LIMIT 1`
and the first result if any. -/
def Rosbag2.get_entry (bag : Rosbag2) (timestamp : Int) (topic : Option String) :
    PyResult (Option Entry) :=
  if !bag.reader then .ok none
  else
    (bag.execute_sql_query
      { pred := fun ts => decide (ts ≤ timestamp), desc := true, limit := some 1 }
      topic).map List.head?

/-- `Rosbag2.get_entry_after(timestamp, topic)`: `None` when there is no
reader, else `timestamp>{t} ORDER BY messages.timestamp LIMIT 1`. -/
def Rosbag2.get_entry_after (bag : Rosbag2) (timestamp : Int)
    (topic : Option String) : PyResult (Option Entry) :=
  if !bag.reader then .ok none
  else
    (bag.execute_sql_query
      { pred := fun ts => decide (timestamp < ts), desc := false, limit := some 1 }
      topic).map List.head?

/-- `Rosbag2.get_entries_in_range(t_start, t_end, topic)`: `None` when there
is no reader, else `timestamp>={t0} AND timestamp<={t1} ORDER BY
messages.timestamp` — note the write-mode branch returns `None`, not a
list, so the result type is an optional list. -/
def Rosbag2.get_entries_in_range (bag : Rosbag2) (t_start t_end : Int)
    (topic : Option String) : PyResult (Option (List Entry)) :=
  if !bag.reader then .ok none
  else
    (bag.execute_sql_query
      { pred := fun ts => decide (t_start ≤ ts) && decide (ts ≤ t_end)
        desc := false, limit := none }
      topic).map some

/-- The topic catalog a read-mode handle on this file holds. -/
def readTmm (f : BagFile) : TopicMetadataMap :=
  buildTopicMetadataMap f.metadata.topics_with_message_count

/-- Entries of the bag as the retrieval queries see them: the joined rows of
the `messages` and `topics` tables. -/
def storedEntries (f : BagFile) : List Entry :=
  f.db.joinedEntries

/-- The entries a query with the given topic restriction and timestamp
predicate is about. -/
def matchingEntries (f : BagFile) (topic : Option String) (pred : Int → Bool) :
    List Entry :=
  (storedEntries f).filter (entryMatches topic pred)

/-- A bag file is well formed when every topic row of the database is also
described by the bag metadata (rosbag2 writes both from the same recording,
so a real bag satisfies this). -/
def BagFile.WF (f : BagFile) : Prop :=
  ∀ tr ∈ f.db.topics, dictContains (readTmm f) tr.name = true

/-- A concrete bag (the scenario of the specification's §8): topics `/a` of
type `TypeX` and `/b` of type `TypeY`, with messages on `/a` at timestamps
10, 20, 20 and 30. -/
def sampleDb : Db :=
  { topics := [⟨1, "/a", "TypeX"⟩, ⟨2, "/b", "TypeY"⟩]
    messages := [⟨1, [0], 10⟩, ⟨1, [1], 20⟩, ⟨1, [2], 20⟩, ⟨1, [3], 30⟩] }

/-- Metadata matching `sampleDb`. -/
def sampleMd : BagMetadata :=
  { bag_size := 100, starting_time := 10, duration := 20
    topics_with_message_count :=
      [⟨⟨"/a", "TypeX", "cdr"⟩, 4⟩, ⟨⟨"/b", "TypeY", "cdr"⟩, 0⟩] }

/-- The concrete bag file built from `sampleMd` and `sampleDb`. -/
def sampleFile : BagFile :=
  { metadata := sampleMd, db := sampleDb }

/-! ### Dictionary and lookup lemmas -/

theorem dictContains_iff_mem_keys (m : TopicMetadataMap) (k : String) :
    dictContains m k = true ↔ k ∈ m.map Prod.fst := by
  simp only [dictContains, List.any_eq_true, beq_iff_eq, List.mem_map]

theorem dictContains_iff_lookup_isSome (m : TopicMetadataMap) (k : String) :
    dictContains m k = true ↔ (m.lookup k).isSome := by
  rw [dictContains_iff_mem_keys, List.lookup_isSome_iff]
  simp only [List.mem_map, beq_iff_eq]
  exact ⟨fun ⟨p, hp, he⟩ => ⟨p, hp, he.symm⟩, fun ⟨p, hp, he⟩ => ⟨p, hp, he.symm⟩⟩

theorem mem_of_lookup_eq_some {β : Type} [BEq β] {m : List (String × β)}
    {k : String} {v : β} (h : m.lookup k = some v) : (k, v) ∈ m := by
  induction m with
  | nil => simp at h
  | cons p m ih =>
    obtain ⟨a, b⟩ := p
    by_cases hk : (k == a) = true
    · have hkeq : k = a := by simpa using hk
      have hv : b = v := by simpa [List.lookup, hk] using h
      exact List.mem_cons.mpr (Or.inl (by rw [hkeq, hv]))
    · rw [Bool.not_eq_true] at hk
      simp only [List.lookup, hk] at h
      exact List.mem_cons_of_mem _ (ih h)

theorem lookup_eq_some_of_mem_nodup {β : Type} [BEq β] {m : List (String × β)}
    {k : String} {v : β} (hnd : (m.map Prod.fst).Nodup) (hmem : (k, v) ∈ m) :
    m.lookup k = some v := by
  induction m with
  | nil => simp at hmem
  | cons p m ih =>
    obtain ⟨a, b⟩ := p
    simp only [List.map_cons, List.nodup_cons] at hnd
    rcases List.mem_cons.mp hmem with h | h
    · have h1 : k = a := congrArg Prod.fst h
      have h2 : v = b := congrArg Prod.snd h
      subst h1; subst h2
      exact List.lookup_cons_self
    · have hk : k ≠ a := by
        intro hkeq
        exact hnd.1 (hkeq ▸ (List.mem_map.mpr ⟨(k, v), h, rfl⟩))
      have hkb : (k == a) = false := beq_eq_false_iff_ne.mpr hk
      simp only [List.lookup, hkb]
      exact ih hnd.2 h

theorem dictInsert_keys (m : TopicMetadataMap) (k : String) (v : TopicMetadata) :
    (dictInsert m k v).map Prod.fst =
      if dictContains m k then m.map Prod.fst else m.map Prod.fst ++ [k] := by
  unfold dictInsert
  split
  · rw [List.map_map]
    apply List.map_congr_left
    intro p _
    by_cases h : p.1 = k <;> simp [h]
  · simp

theorem dictInsert_keys_nodup (m : TopicMetadataMap) (k : String)
    (v : TopicMetadata) (h : (m.map Prod.fst).Nodup) :
    ((dictInsert m k v).map Prod.fst).Nodup := by
  rw [dictInsert_keys]
  split
  · exact h
  · rename_i hc
    rw [List.nodup_append]
    refine ⟨h, List.nodup_singleton k, ?_⟩
    intro x hx hk
    rcases List.mem_singleton.mp hk with rfl
    exact absurd ((dictContains_iff_mem_keys m x).mpr hx) (by simpa using hc)

theorem dictInsert_name_inv (m : TopicMetadataMap) (k : String)
    (v : TopicMetadata) (hv : v.name = k) (h : ∀ p ∈ m, p.2.name = p.1) :
    ∀ p ∈ dictInsert m k v, p.2.name = p.1 := by
  unfold dictInsert
  split
  · intro p hp
    rcases List.mem_map.mp hp with ⟨q, hq, rfl⟩
    by_cases hqk : q.1 = k
    · simp [hqk, hv]
    · simp only [hqk, if_false, beq_iff_eq]
      exact h q hq
  · intro p hp
    rcases List.mem_append.mp hp with hp | hp
    · exact h p hp
    · rcases List.mem_singleton.mp hp with rfl
      simpa using hv

theorem buildTopicMetadataMap_keys_nodup (tis : List TopicInformation) :
    ((buildTopicMetadataMap tis).map Prod.fst).Nodup := by
  suffices h : ∀ acc : TopicMetadataMap, (acc.map Prod.fst).Nodup →
      ((tis.foldl (fun m ti => dictInsert m ti.topic_metadata.name ti.topic_metadata) acc).map
        Prod.fst).Nodup by
    exact h [] (by simp)
  induction tis with
  | nil => intro acc hacc; exact hacc
  | cons ti tis ih =>
    intro acc hacc
    exact ih _ (dictInsert_keys_nodup _ _ _ hacc)

theorem buildTopicMetadataMap_name_inv (tis : List TopicInformation) :
    ∀ p ∈ buildTopicMetadataMap tis, p.2.name = p.1 := by
  suffices h : ∀ acc : TopicMetadataMap, (∀ p ∈ acc, p.2.name = p.1) →
      ∀ p ∈ tis.foldl (fun m ti => dictInsert m ti.topic_metadata.name ti.topic_metadata) acc,
        p.2.name = p.1 by
    exact h [] (by simp)
  induction tis with
  | nil => intro acc hacc; exact hacc
  | cons ti tis ih =>
    intro acc hacc
    exact ih _ (dictInsert_name_inv _ _ _ rfl hacc)

/-! ### Ordering lemmas for the modelled `ORDER BY` clause -/

theorem mem_orderByTimestamp (d : Bool) (l : List Entry) (e : Entry) :
    e ∈ orderByTimestamp d l ↔ e ∈ l := by
  cases d <;> simp [orderByTimestamp]

theorem orderByTimestamp_eq_nil_iff (d : Bool) (l : List Entry) :
    orderByTimestamp d l = [] ↔ l = [] := by
  constructor
  · intro h
    rcases l with _ | ⟨e, l⟩
    · rfl
    · exfalso
      have : e ∈ orderByTimestamp d (e :: l) :=
        (mem_orderByTimestamp d _ e).mpr (List.mem_cons_self e l)
      rw [h] at this
      simp at this
  · rintro rfl
    cases d <;> simp [orderByTimestamp]

theorem orderByTimestamp_asc_pairwise (l : List Entry) :
    (orderByTimestamp false l).Pairwise (fun a b => a.timestamp ≤ b.timestamp) := by
  have h : (l.mergeSort (fun a b => decide (a.timestamp ≤ b.timestamp))).Pairwise
      (fun a b => decide (a.timestamp ≤ b.timestamp) = true) := by
    apply List.sorted_mergeSort
    · intro a b c h1 h2
      simp only [decide_eq_true_eq] at h1 h2 ⊢
      omega
    · intro a b
      simp only [Bool.or_eq_true, decide_eq_true_eq]
      exact Int.le_total _ _
  simp only [orderByTimestamp, Bool.false_eq_true, if_false]
  exact h.imp (fun hab => by simpa using hab)

theorem orderByTimestamp_desc_pairwise (l : List Entry) :
    (orderByTimestamp true l).Pairwise (fun a b => b.timestamp ≤ a.timestamp) := by
  have h : (l.mergeSort (fun a b => decide (b.timestamp ≤ a.timestamp))).Pairwise
      (fun a b => decide (b.timestamp ≤ a.timestamp) = true) := by
    apply List.sorted_mergeSort
    · intro a b c h1 h2
      simp only [decide_eq_true_eq] at h1 h2 ⊢
      omega
    · intro a b
      simp only [Bool.or_eq_true, decide_eq_true_eq]
      exact Int.le_total _ _
  simp only [orderByTimestamp, if_true]
  exact h.imp (fun hab => by simpa using hab)

/-- The head of the descending-ordered list is an element of maximum
timestamp. -/
theorem head_max_of_desc (l : List Entry) (e : Entry)
    (h : (orderByTimestamp true l).head? = some e) :
    e ∈ l ∧ ∀ x ∈ l, x.timestamp ≤ e.timestamp := by
  obtain ⟨rest, hrest⟩ : ∃ rest, orderByTimestamp true l = e :: rest := by
    rcases hl : orderByTimestamp true l with _ | ⟨a, rest⟩
    · rw [hl] at h; simp at h
    · rw [hl] at h
      simp only [List.head?_cons, Option.some.injEq] at h
      exact ⟨rest, by rw [h]⟩
  have hp := orderByTimestamp_desc_pairwise l
  rw [hrest] at hp
  have he : e ∈ l := by
    rw [← mem_orderByTimestamp true l, hrest]
    exact List.mem_cons_self e rest
  refine ⟨he, fun x hx => ?_⟩
  rw [← mem_orderByTimestamp true l, hrest] at hx
  rcases List.mem_cons.mp hx with rfl | hx
  · exact le_refl _
  · exact (List.pairwise_cons.mp hp).1 x hx

/-- The head of the ascending-ordered list is an element of minimum
timestamp. -/
theorem head_min_of_asc (l : List Entry) (e : Entry)
    (h : (orderByTimestamp false l).head? = some e) :
    e ∈ l ∧ ∀ x ∈ l, e.timestamp ≤ x.timestamp := by
  obtain ⟨rest, hrest⟩ : ∃ rest, orderByTimestamp false l = e :: rest := by
    rcases hl : orderByTimestamp false l with _ | ⟨a, rest⟩
    · rw [hl] at h; simp at h
    · rw [hl] at h
      simp only [List.head?_cons, Option.some.injEq] at h
      exact ⟨rest, by rw [h]⟩
  have hp := orderByTimestamp_asc_pairwise l
  rw [hrest] at hp
  have he : e ∈ l := by
    rw [← mem_orderByTimestamp false l, hrest]
    exact List.mem_cons_self e rest
  refine ⟨he, fun x hx => ?_⟩
  rw [← mem_orderByTimestamp false l, hrest] at hx
  rcases List.mem_cons.mp hx with rfl | hx
  · exact le_refl _
  · exact (List.pairwise_cons.mp hp).1 x hx

theorem head?_take_one {α : Type} (l : List α) : (l.take 1).head? = l.head? := by
  cases l <;> rfl

/-- Every entry produced by the join carries the name of some row of the
`topics` table. -/
theorem joinedEntries_topic_mem (db : Db) (e : Entry) (h : e ∈ db.joinedEntries) :
    ∃ tr ∈ db.topics, tr.name = e.topic := by
  simp only [Db.joinedEntries, List.mem_flatMap, List.mem_map, List.mem_filter] at h
  obtain ⟨msg, _, tr, ⟨htr, _⟩, rfl⟩ := h
  exact ⟨tr, htr, rfl⟩

/-! ### Evaluation of the retrieval methods on a read-mode handle -/

theorem execute_sql_query_read_none (f : BagFile) (q : SqlQuery) :
    (Rosbag2.init f false).execute_sql_query q none =
      .ok (applyLimit q.limit (orderByTimestamp q.desc (matchingEntries f none q.pred))) := by
  simp [Rosbag2.execute_sql_query, Rosbag2.run_query, Rosbag2.init,
    matchingEntries, storedEntries]

theorem execute_sql_query_read_some_known (f : BagFile) (q : SqlQuery)
    (tp : String) (h : dictContains (readTmm f) tp = true) :
    (Rosbag2.init f false).execute_sql_query q (some tp) =
      .ok (applyLimit q.limit (orderByTimestamp q.desc (matchingEntries f (some tp) q.pred))) := by
  simp only [Rosbag2.execute_sql_query, Rosbag2.init, Bool.false_eq_true, if_false, readTmm] at *
  rw [h]
  simp [Rosbag2.run_query, matchingEntries, storedEntries, readTmm]

theorem execute_sql_query_read_some_unknown (f : BagFile) (q : SqlQuery)
    (tp : String) (h : dictContains (readTmm f) tp = false) :
    (Rosbag2.init f false).execute_sql_query q (some tp) = .ok [] := by
  simp only [Rosbag2.execute_sql_query, Rosbag2.init, Bool.false_eq_true, if_false, readTmm] at *
  rw [h]
  simp

/-- In a well-formed bag, a topic absent from the catalog has no stored
entries, whatever the timestamp predicate. -/
theorem matchingEntries_unknown_topic_nil (f : BagFile) (hwf : f.WF)
    (tp : String) (h : dictContains (readTmm f) tp = false) (pred : Int → Bool) :
    matchingEntries f (some tp) pred = [] := by
  rw [List.eq_nil_iff_forall_not_mem]
  intro e he
  rw [matchingEntries, List.mem_filter] at he
  obtain ⟨hes, hem⟩ := he
  have htp : e.topic = tp := by
    simp only [entryMatches, Bool.and_eq_true, beq_iff_eq] at hem
    exact hem.1
  obtain ⟨tr, htr, hname⟩ := joinedEntries_topic_mem f.db e hes
  have hcontains := hwf tr htr
  rw [hname, htp] at hcontains
  rw [hcontains] at h
  exact absurd h (by simp)

theorem get_entry_read_eq (f : BagFile) (t : Int) (topic : Option String)
    (h : ∀ tp, topic = some tp → dictContains (readTmm f) tp = true) :
    (Rosbag2.init f false).get_entry t topic =
      .ok ((orderByTimestamp true
        (matchingEntries f topic (fun ts => decide (ts ≤ t)))).head?) := by
  have hr : (Rosbag2.init f false).reader = true := by simp [Rosbag2.init]
  rcases topic with _ | tp
  · rw [Rosbag2.get_entry, hr]
    rw [execute_sql_query_read_none]
    simp [applyLimit, head?_take_one, Except.map]
  · rw [Rosbag2.get_entry, hr]
    rw [execute_sql_query_read_some_known f _ tp (h tp rfl)]
    simp [applyLimit, head?_take_one, Except.map]

theorem get_entry_after_read_eq (f : BagFile) (t : Int) (topic : Option String)
    (h : ∀ tp, topic = some tp → dictContains (readTmm f) tp = true) :
    (Rosbag2.init f false).get_entry_after t topic =
      .ok ((orderByTimestamp false
        (matchingEntries f topic (fun ts => decide (t < ts)))).head?) := by
  have hr : (Rosbag2.init f false).reader = true := by simp [Rosbag2.init]
  rcases topic with _ | tp
  · rw [Rosbag2.get_entry_after, hr]
    rw [execute_sql_query_read_none]
    simp [applyLimit, head?_take_one, Except.map]
  · rw [Rosbag2.get_entry_after, hr]
    rw [execute_sql_query_read_some_known f _ tp (h tp rfl)]
    simp [applyLimit, head?_take_one, Except.map]

theorem get_entries_in_range_read_eq (f : BagFile) (t0 t1 : Int)
    (topic : Option String)
    (h : ∀ tp, topic = some tp → dictContains (readTmm f) tp = true) :
    (Rosbag2.init f false).get_entries_in_range t0 t1 topic =
      .ok (some (orderByTimestamp false
        (matchingEntries f topic (fun ts => decide (t0 ≤ ts) && decide (ts ≤ t1))))) := by
  have hr : (Rosbag2.init f false).reader = true := by simp [Rosbag2.init]
  rcases topic with _ | tp
  · rw [Rosbag2.get_entries_in_range, hr]
    rw [execute_sql_query_read_none]
    simp [applyLimit, Except.map]
  · rw [Rosbag2.get_entries_in_range, hr]
    rw [execute_sql_query_read_some_known f _ tp (h tp rfl)]
    simp [applyLimit, Except.map]

theorem entryMatches_pred {topic : Option String} {pred : Int → Bool}
    {e : Entry} (h : entryMatches topic pred e = true) :
    pred e.timestamp = true := by
  simp only [entryMatches, Bool.and_eq_true] at h
  exact h.2

theorem entryMatches_topic {tp : String} {pred : Int → Bool} {e : Entry}
    (h : entryMatches (some tp) pred e = true) : e.topic = tp := by
  simp only [entryMatches, Bool.and_eq_true, beq_iff_eq] at h
  exact h.1

/-! ### The claims -/

/-- C1: for every read-mode bag (well formed, i.e. the database's topics are
catalogued), timestamp `t`, and optional topic, `get_entry(t, topic)`
returns an entry of maximum timestamp among the stored entries with
timestamp `≤ t` (restricted to the topic if given), and `None` when no
stored entry matches. -/
theorem get_entry_max_at_or_before (f : BagFile) (hwf : f.WF) (t : Int)
    (topic : Option String) :
    ∃ r : Option Entry,
      (Rosbag2.init f false).get_entry t topic = .ok r ∧
      (r = none ↔ matchingEntries f topic (fun ts => decide (ts ≤ t)) = []) ∧
      (∀ e, r = some e →
        e ∈ matchingEntries f topic (fun ts => decide (ts ≤ t)) ∧
        ∀ x ∈ matchingEntries f topic (fun ts => decide (ts ≤ t)),
          x.timestamp ≤ e.timestamp) := by
  by_cases hknown : ∀ tp, topic = some tp → dictContains (readTmm f) tp = true
  · refine ⟨_, get_entry_read_eq f t topic hknown, ?_, ?_⟩
    · rw [List.head?_eq_none_iff, orderByTimestamp_eq_nil_iff]
    · intro e he
      exact head_max_of_desc _ e he
  · push_neg at hknown
    obtain ⟨tp, htp, hc⟩ := hknown
    replace hc : dictContains (readTmm f) tp = false := by simpa using hc
    subst htp
    have hM : matchingEntries f (some tp) (fun ts => decide (ts ≤ t)) = [] :=
      matchingEntries_unknown_topic_nil f hwf tp hc _
    have hr : (Rosbag2.init f false).reader = true := by simp [Rosbag2.init]
    refine ⟨none, ?_, by simp [hM], by simp⟩
    rw [Rosbag2.get_entry, hr, execute_sql_query_read_some_unknown f _ tp hc]
    simp [Except.map]

/-- Witness for C1: the sample bag at `t = 20`, topic `/a`. -/
theorem get_entry_max_at_or_before_witness :
    ∃ r : Option Entry,
      (Rosbag2.init sampleFile false).get_entry 20 (some "/a") = .ok r ∧
      (r = none ↔
        matchingEntries sampleFile (some "/a") (fun ts => decide (ts ≤ (20 : Int))) = []) ∧
      (∀ e, r = some e →
        e ∈ matchingEntries sampleFile (some "/a") (fun ts => decide (ts ≤ (20 : Int))) ∧
        ∀ x ∈ matchingEntries sampleFile (some "/a") (fun ts => decide (ts ≤ (20 : Int))),
          x.timestamp ≤ e.timestamp) :=
  get_entry_max_at_or_before sampleFile (by unfold BagFile.WF; decide) 20 (some "/a")

/-- C2: for every read-mode bag (well formed), timestamp `t`, and optional
topic, `get_entry_after(t, topic)` returns an entry of minimum timestamp
among the stored entries with timestamp `> t` (restricted to the topic if
given), and `None` when no stored entry matches. -/
theorem get_entry_after_min_strictly_after (f : BagFile) (hwf : f.WF) (t : Int)
    (topic : Option String) :
    ∃ r : Option Entry,
      (Rosbag2.init f false).get_entry_after t topic = .ok r ∧
      (r = none ↔ matchingEntries f topic (fun ts => decide (t < ts)) = []) ∧
      (∀ e, r = some e →
        e ∈ matchingEntries f topic (fun ts => decide (t < ts)) ∧
        ∀ x ∈ matchingEntries f topic (fun ts => decide (t < ts)),
          e.timestamp ≤ x.timestamp) := by
  by_cases hknown : ∀ tp, topic = some tp → dictContains (readTmm f) tp = true
  · refine ⟨_, get_entry_after_read_eq f t topic hknown, ?_, ?_⟩
    · rw [List.head?_eq_none_iff, orderByTimestamp_eq_nil_iff]
    · intro e he
      exact head_min_of_asc _ e he
  · push_neg at hknown
    obtain ⟨tp, htp, hc⟩ := hknown
    replace hc : dictContains (readTmm f) tp = false := by simpa using hc
    subst htp
    have hM : matchingEntries f (some tp) (fun ts => decide (t < ts)) = [] :=
      matchingEntries_unknown_topic_nil f hwf tp hc _
    have hr : (Rosbag2.init f false).reader = true := by simp [Rosbag2.init]
    refine ⟨none, ?_, by simp [hM], by simp⟩
    rw [Rosbag2.get_entry_after, hr, execute_sql_query_read_some_unknown f _ tp hc]
    simp [Except.map]

/-- Witness for C2: the sample bag at `t = 20`, topic `/a`. -/
theorem get_entry_after_min_strictly_after_witness :
    ∃ r : Option Entry,
      (Rosbag2.init sampleFile false).get_entry_after 20 (some "/a") = .ok r ∧
      (r = none ↔
        matchingEntries sampleFile (some "/a") (fun ts => decide ((20 : Int) < ts)) = []) ∧
      (∀ e, r = some e →
        e ∈ matchingEntries sampleFile (some "/a") (fun ts => decide ((20 : Int) < ts)) ∧
        ∀ x ∈ matchingEntries sampleFile (some "/a") (fun ts => decide ((20 : Int) < ts)),
          e.timestamp ≤ x.timestamp) :=
  get_entry_after_min_strictly_after sampleFile (by unfold BagFile.WF; decide) 20 (some "/a")

/-- C3: on a read-mode bag, `get_entries_in_range(t0, t1, topic)` returns a
list that is non-decreasing in timestamp, all of whose entries have
timestamps within `[t0, t1]`, and which is empty whenever `t0 > t1`. -/
theorem get_entries_in_range_sorted_bounded (f : BagFile) (t0 t1 : Int)
    (topic : Option String) :
    ∃ l : List Entry,
      (Rosbag2.init f false).get_entries_in_range t0 t1 topic = .ok (some l) ∧
      l.Pairwise (fun a b => a.timestamp ≤ b.timestamp) ∧
      (∀ e ∈ l, t0 ≤ e.timestamp ∧ e.timestamp ≤ t1) ∧
      (t1 < t0 → l = []) := by
  by_cases hknown : ∀ tp, topic = some tp → dictContains (readTmm f) tp = true
  · refine ⟨_, get_entries_in_range_read_eq f t0 t1 topic hknown,
      orderByTimestamp_asc_pairwise _, ?_, ?_⟩
    · intro e he
      rw [mem_orderByTimestamp] at he
      rw [matchingEntries, List.mem_filter] at he
      have hb := entryMatches_pred he.2
      simp only [Bool.and_eq_true, decide_eq_true_eq] at hb
      exact hb
    · intro hlt
      rw [orderByTimestamp_eq_nil_iff, List.eq_nil_iff_forall_not_mem]
      intro e he
      rw [matchingEntries, List.mem_filter] at he
      have hb := entryMatches_pred he.2
      simp only [Bool.and_eq_true, decide_eq_true_eq] at hb
      omega
  · push_neg at hknown
    obtain ⟨tp, htp, hc⟩ := hknown
    replace hc : dictContains (readTmm f) tp = false := by simpa using hc
    subst htp
    have hr : (Rosbag2.init f false).reader = true := by simp [Rosbag2.init]
    refine ⟨[], ?_, by simp, by simp, fun _ => rfl⟩
    rw [Rosbag2.get_entries_in_range, hr, execute_sql_query_read_some_unknown f _ tp hc]
    simp [Except.map]

/-- Counterexample to C4 as stated: on a write-mode handle,
`get_entries_in_range` does not return an empty sequence — it returns
`None` (the value `Except.ok none`, not `Except.ok (some [])`). -/
theorem get_entries_in_range_write_not_empty_list :
    (Rosbag2.init sampleFile true).get_entries_in_range 15 25 none ≠
      Except.ok (some ([] : List Entry)) := by
  have h : (Rosbag2.init sampleFile true).get_entries_in_range 15 25 none =
      .ok none := rfl
  rw [h]
  simp

/-- C4 (amended): on a write-mode handle, `get_entry`, `get_entry_after`
and `get_entries_in_range` all return `None` without raising —
`get_entries_in_range` returns `None` rather than an empty sequence. -/
theorem write_mode_retrievals_return_none (f : BagFile) (t t0 t1 : Int)
    (topic : Option String) :
    (Rosbag2.init f true).get_entry t topic = .ok none ∧
    (Rosbag2.init f true).get_entry_after t topic = .ok none ∧
    (Rosbag2.init f true).get_entries_in_range t0 t1 topic = .ok none := by
  refine ⟨?_, ?_, ?_⟩ <;>
    simp [Rosbag2.init, Rosbag2.get_entry, Rosbag2.get_entry_after,
      Rosbag2.get_entries_in_range]

/-- Counterexample to C5 as stated: on a write-mode handle `get_entry` does
not fail with `WrongModeError` (the code defines no such error); it returns
`None` normally. -/
theorem get_entry_write_no_wrong_mode_error :
    (Rosbag2.init sampleFile true).get_entry 0 none = .ok none ∧
    (Rosbag2.init sampleFile true).get_entry 0 none ≠
      Except.error PyError.wrongModeError := by
  have h : (Rosbag2.init sampleFile true).get_entry 0 none = .ok none := rfl
  rw [h]
  simp

/-- C5 (amended): retrieval calls on a write-mode handle deterministically
return `None` (`Except.ok none`); none of the three operations ever
produces an error. -/
theorem write_mode_retrievals_never_error (f : BagFile) (t t0 t1 : Int)
    (topic : Option String) :
    (∀ e : PyError, (Rosbag2.init f true).get_entry t topic ≠ .error e) ∧
    (∀ e : PyError, (Rosbag2.init f true).get_entry_after t topic ≠ .error e) ∧
    (∀ e : PyError,
      (Rosbag2.init f true).get_entries_in_range t0 t1 topic ≠ .error e) := by
  refine ⟨?_, ?_, ?_⟩ <;> intro e <;>
    simp [Rosbag2.init, Rosbag2.get_entry, Rosbag2.get_entry_after,
      Rosbag2.get_entries_in_range]

/-- C6: on a read-mode bag, with `t0 ≤ t1`, a range query naming a topic
that is not in the catalog returns the empty list and does not raise. -/
theorem get_entries_in_range_unknown_topic (f : BagFile) (t0 t1 : Int)
    (tp : String) (hle : t0 ≤ t1)
    (hunk : ∀ ts, (Rosbag2.init f false).get_topics = .ok ts → tp ∉ ts) :
    (Rosbag2.init f false).get_entries_in_range t0 t1 (some tp) =
      .ok (some []) := by
  have hts : (Rosbag2.init f false).get_topics =
      .ok (((readTmm f).map Prod.fst).mergeSort (fun a b => decide (a.data ≤ b.data))) := by
    simp [Rosbag2.get_topics, Rosbag2.init, readTmm]
  have hnot := hunk _ hts
  have hmem : tp ∉ (readTmm f).map Prod.fst := fun hm =>
    hnot (List.mem_mergeSort.mpr hm)
  have hc : dictContains (readTmm f) tp = false := by
    cases hcc : dictContains (readTmm f) tp
    · rfl
    · exact absurd ((dictContains_iff_mem_keys _ _).mp hcc) hmem
  have hr : (Rosbag2.init f false).reader = true := by simp [Rosbag2.init]
  rw [Rosbag2.get_entries_in_range, hr,
    execute_sql_query_read_some_unknown f _ tp hc]
  simp [Except.map]

unseal List.merge List.mergeSort in
/-- Witness for C6: the sample bag, topic `/c` (absent from the catalog). -/
theorem get_entries_in_range_unknown_topic_witness :
    (Rosbag2.init sampleFile false).get_entries_in_range 0 1 (some "/c") =
      .ok (some []) :=
  get_entries_in_range_unknown_topic sampleFile 0 1 "/c" (by decide)
    (by
      intro ts hts
      have h2 : (Rosbag2.init sampleFile false).get_topics = .ok ["/a", "/b"] := by
        rfl
      rw [h2, Except.ok.injEq] at hts
      subst hts
      decide)

/-! ### Evaluation of the catalog methods on a read-mode handle -/

theorem get_topics_read_eq (f : BagFile) :
    (Rosbag2.init f false).get_topics =
      .ok (((readTmm f).map Prod.fst).mergeSort (fun a b => decide (a.data ≤ b.data))) := by
  simp [Rosbag2.get_topics, Rosbag2.init, readTmm]

theorem get_topic_type_read_eq (f : BagFile) (tp : String) :
    (Rosbag2.init f false).get_topic_type tp =
      .ok (((readTmm f).lookup tp).map (·.type)) := by
  simp [Rosbag2.get_topic_type, Rosbag2.init, readTmm]

theorem get_topic_metadata_read_eq (f : BagFile) (tp : String) :
    (Rosbag2.init f false).get_topic_metadata tp =
      .ok ((readTmm f).lookup tp) := by
  simp [Rosbag2.get_topic_metadata, Rosbag2.init, readTmm]

theorem get_topics_by_type_read_eq (f : BagFile) :
    (Rosbag2.init f false).get_topics_by_type =
      .ok ((readTmm f).foldl (fun acc p => tbtInsert acc p.2.type p.1) []) := by
  simp [Rosbag2.get_topics_by_type, Rosbag2.init, readTmm]

/-- Membership in the sorted topic listing is membership among the catalog
keys. -/
theorem mem_get_topics_iff (f : BagFile) (tp : String) :
    tp ∈ ((readTmm f).map Prod.fst).mergeSort (fun a b => decide (a.data ≤ b.data)) ↔
      tp ∈ (readTmm f).map Prod.fst :=
  List.mem_mergeSort

/-! ### Invariants of the `get_topics_by_type` accumulation -/

theorem tbtInsert_keys (m : List (String × List String)) (ty n : String) :
    (tbtInsert m ty n).map Prod.fst =
      if m.any (fun p => p.1 == ty) then m.map Prod.fst
      else m.map Prod.fst ++ [ty] := by
  unfold tbtInsert
  split
  · rw [List.map_map]
    apply List.map_congr_left
    intro p _
    by_cases h : p.1 = ty <;> simp [h]
  · simp

theorem tbtInsert_keys_nodup (m : List (String × List String)) (ty n : String)
    (h : (m.map Prod.fst).Nodup) : ((tbtInsert m ty n).map Prod.fst).Nodup := by
  rw [tbtInsert_keys]
  split
  · exact h
  · rename_i hc
    rw [List.nodup_append]
    refine ⟨h, List.nodup_singleton ty, fun x hx hk => ?_⟩
    rcases List.mem_singleton.mp hk with rfl
    rcases List.mem_map.mp hx with ⟨p, hp, hpe⟩
    exact hc (List.any_eq_true.mpr ⟨p, hp, by simp [hpe]⟩)

theorem tbtInsert_groups_ne_nil (m : List (String × List String)) (ty n : String)
    (h : ∀ p ∈ m, p.2 ≠ []) : ∀ p ∈ tbtInsert m ty n, p.2 ≠ [] := by
  unfold tbtInsert
  split
  · intro p hp
    rcases List.mem_map.mp hp with ⟨q, hq, rfl⟩
    by_cases hqt : q.1 = ty
    · simp [hqt]
    · simp only [hqt, if_false, beq_iff_eq]
      exact h q hq
  · intro p hp
    rcases List.mem_append.mp hp with hp | hp
    · exact h p hp
    · rcases List.mem_singleton.mp hp with rfl
      simp

theorem tbtInsert_content {C : String → String → Prop}
    (m : List (String × List String)) (ty n : String)
    (hm : ∀ p ∈ m, ∀ x ∈ p.2, C x p.1) (hn : C n ty) :
    ∀ p ∈ tbtInsert m ty n, ∀ x ∈ p.2, C x p.1 := by
  unfold tbtInsert
  split
  · intro p hp x hx
    rcases List.mem_map.mp hp with ⟨q, hq, rfl⟩
    by_cases hqt : q.1 = ty
    · simp only [hqt, if_true, beq_self_eq_true] at hx ⊢
      rcases List.mem_append.mp hx with hx | hx
      · simpa [hqt] using hm q hq x hx
      · rcases List.mem_singleton.mp hx with rfl
        simpa [hqt] using hn
    · simp only [hqt, if_false, beq_iff_eq] at hx ⊢
      exact hm q hq x hx
  · intro p hp x hx
    rcases List.mem_append.mp hp with hp | hp
    · exact hm p hp x hx
    · rcases List.mem_singleton.mp hp with rfl
      rcases List.mem_singleton.mp hx with rfl
      exact hn

theorem map_tbtUpd_eq_self (m : List (String × List String)) (ty n : String)
    (h : ∀ p ∈ m, p.1 ≠ ty) :
    m.map (fun p => if p.1 == ty then (p.1, p.2 ++ [n]) else p) = m := by
  induction m with
  | nil => rfl
  | cons p m ih =>
    simp only [List.map_cons]
    rw [ih (fun q hq => h q (List.mem_cons_of_mem _ hq))]
    have hp := h p (List.mem_cons_self _ _)
    simp [hp]

theorem tbtInsert_cons_ne (p : String × List String)
    (m : List (String × List String)) (ty n : String) (h : p.1 ≠ ty) :
    tbtInsert (p :: m) ty n = p :: tbtInsert m ty n := by
  unfold tbtInsert
  have hb : (p.1 == ty) = false := beq_eq_false_iff_ne.mpr h
  simp only [List.any_cons, hb, Bool.false_or]
  cases ha : m.any (fun q => q.1 == ty) <;> simp [ha, hb] <;>
    exact fun h' => absurd h' h

theorem tbtInsert_flatten_perm (m : List (String × List String)) (ty n : String)
    (hnd : (m.map Prod.fst).Nodup) :
    ((tbtInsert m ty n).map Prod.snd).flatten ~ (m.map Prod.snd).flatten ++ [n] := by
  induction m with
  | nil => simp [tbtInsert]
  | cons p m ih =>
    rw [List.map_cons, List.nodup_cons] at hnd
    by_cases hpt : p.1 = ty
    · have hany : (p :: m).any (fun q => q.1 == ty) = true := by
        simp [List.any_cons, hpt]
      have hkeys : ∀ q ∈ m, q.1 ≠ ty := by
        intro q hq hqt
        exact hnd.1 (List.mem_map.mpr ⟨q, hq, by rw [hqt, ← hpt]⟩)
      unfold tbtInsert
      rw [hany]
      simp only [if_true, List.map_cons]
      rw [map_tbtUpd_eq_self m ty n hkeys]
      have hbp : (p.1 == ty) = true := by simpa using hpt
      rw [hbp]
      simp only [if_true, List.map_cons, List.flatten_cons]
      calc (p.2 ++ [n]) ++ (m.map Prod.snd).flatten
          = p.2 ++ ([n] ++ (m.map Prod.snd).flatten) := by rw [List.append_assoc]
        _ ~ p.2 ++ ((m.map Prod.snd).flatten ++ [n]) :=
            List.Perm.append_left _ List.perm_append_comm
        _ = (p.2 ++ (m.map Prod.snd).flatten) ++ [n] := by rw [List.append_assoc]
    · rw [tbtInsert_cons_ne p m ty n hpt]
      simp only [List.map_cons, List.flatten_cons]
      calc p.2 ++ ((tbtInsert m ty n).map Prod.snd).flatten
          ~ p.2 ++ ((m.map Prod.snd).flatten ++ [n]) :=
            List.Perm.append_left _ (ih hnd.2)
        _ = (p.2 ++ (m.map Prod.snd).flatten) ++ [n] := by rw [List.append_assoc]

theorem tbt_foldl_keys_nodup_and_flatten_perm (l : List (String × TopicMetadata))
    (acc : List (String × List String)) (hnd : (acc.map Prod.fst).Nodup) :
    ((l.foldl (fun a p => tbtInsert a p.2.type p.1) acc).map Prod.fst).Nodup ∧
    ((l.foldl (fun a p => tbtInsert a p.2.type p.1) acc).map Prod.snd).flatten ~
      (acc.map Prod.snd).flatten ++ l.map Prod.fst := by
  induction l generalizing acc with
  | nil => exact ⟨hnd, by simp⟩
  | cons p l ih =>
    obtain ⟨ih1, ih2⟩ := ih (tbtInsert acc p.2.type p.1) (tbtInsert_keys_nodup _ _ _ hnd)
    rw [List.foldl_cons, List.map_cons]
    refine ⟨ih1, ih2.trans ?_⟩
    calc ((tbtInsert acc p.2.type p.1).map Prod.snd).flatten ++ l.map Prod.fst
        ~ ((acc.map Prod.snd).flatten ++ [p.1]) ++ l.map Prod.fst :=
          (tbtInsert_flatten_perm acc p.2.type p.1 hnd).append_right _
      _ = (acc.map Prod.snd).flatten ++ (p.1 :: l.map Prod.fst) := by simp

theorem tbt_foldl_groups_ne_nil (l : List (String × TopicMetadata))
    (acc : List (String × List String)) (h : ∀ p ∈ acc, p.2 ≠ []) :
    ∀ p ∈ l.foldl (fun a q => tbtInsert a q.2.type q.1) acc, p.2 ≠ [] := by
  induction l generalizing acc with
  | nil => exact h
  | cons q l ih => exact ih _ (tbtInsert_groups_ne_nil _ _ _ h)

theorem tbt_foldl_content {C : String → String → Prop}
    (l : List (String × TopicMetadata)) (acc : List (String × List String))
    (hacc : ∀ p ∈ acc, ∀ x ∈ p.2, C x p.1)
    (hl : ∀ q ∈ l, C q.1 q.2.type) :
    ∀ p ∈ l.foldl (fun a q => tbtInsert a q.2.type q.1) acc, ∀ x ∈ p.2, C x p.1 := by
  induction l generalizing acc with
  | nil => exact hacc
  | cons q l ih =>
    exact ih _ (tbtInsert_content _ _ _ hacc (hl q (List.mem_cons_self _ _)))
      (fun r hr => hl r (List.mem_cons_of_mem _ hr))

/-- C7: every topic name listed by `get_topics` has a non-`None`
`get_topic_type`, and every string not listed gets `None`. -/
theorem topic_type_defined_iff_listed (f : BagFile) (tp : String) :
    ∃ ts, (Rosbag2.init f false).get_topics = .ok ts ∧
      (tp ∈ ts → ∃ ty, (Rosbag2.init f false).get_topic_type tp = .ok (some ty)) ∧
      (tp ∉ ts → (Rosbag2.init f false).get_topic_type tp = .ok none) := by
  refine ⟨_, get_topics_read_eq f, ?_, ?_⟩
  · intro hmem
    have hk : tp ∈ (readTmm f).map Prod.fst := (mem_get_topics_iff f tp).mp hmem
    have hs : ((readTmm f).lookup tp).isSome := by
      rw [← dictContains_iff_lookup_isSome]
      exact (dictContains_iff_mem_keys _ _).mpr hk
    obtain ⟨md, hmd⟩ := Option.isSome_iff_exists.mp hs
    refine ⟨md.type, ?_⟩
    rw [get_topic_type_read_eq, hmd]
    rfl
  · intro hmem
    have hk : tp ∉ (readTmm f).map Prod.fst := fun h =>
      hmem ((mem_get_topics_iff f tp).mpr h)
    have hn : (readTmm f).lookup tp = none := by
      rw [List.lookup_eq_none_iff]
      intro p hp
      have : tp ≠ p.1 := fun he => hk (List.mem_map.mpr ⟨p, hp, he.symm⟩)
      simpa using this
    rw [get_topic_type_read_eq, hn]
    rfl

/-- C8: for every read-mode bag, the latest timestamp equals the earliest
timestamp plus the bag's duration, as exact integer arithmetic. -/
theorem latest_eq_earliest_add_duration (f : BagFile) :
    ∃ s : Int, (Rosbag2.init f false).get_earliest_timestamp = .ok s ∧
      (Rosbag2.init f false).get_latest_timestamp = .ok (s + f.metadata.duration) :=
  ⟨f.metadata.starting_time,
    by simp [Rosbag2.get_earliest_timestamp, Rosbag2.init],
    by simp [Rosbag2.get_latest_timestamp, Rosbag2.init]⟩

/-- C9: `get_topic_type` and `get_topic_metadata` agree on every name: both
`None` off the catalog; on the catalog the metadata is present, its `type`
field is the `get_topic_type` answer and its `name` field is the queried
name. -/
theorem topic_metadata_agrees_with_topic_type (f : BagFile) (tp : String) :
    ∃ ts, (Rosbag2.init f false).get_topics = .ok ts ∧
      (tp ∉ ts → (Rosbag2.init f false).get_topic_type tp = .ok none ∧
        (Rosbag2.init f false).get_topic_metadata tp = .ok none) ∧
      (tp ∈ ts → ∃ md,
        (Rosbag2.init f false).get_topic_metadata tp = .ok (some md) ∧
        (Rosbag2.init f false).get_topic_type tp = .ok (some md.type) ∧
        md.name = tp) := by
  refine ⟨_, get_topics_read_eq f, ?_, ?_⟩
  · intro hmem
    have hk : tp ∉ (readTmm f).map Prod.fst := fun h =>
      hmem ((mem_get_topics_iff f tp).mpr h)
    have hn : (readTmm f).lookup tp = none := by
      rw [List.lookup_eq_none_iff]
      intro p hp
      have : tp ≠ p.1 := fun he => hk (List.mem_map.mpr ⟨p, hp, he.symm⟩)
      simpa using this
    constructor
    · rw [get_topic_type_read_eq, hn]
      rfl
    · rw [get_topic_metadata_read_eq, hn]
  · intro hmem
    have hk : tp ∈ (readTmm f).map Prod.fst := (mem_get_topics_iff f tp).mp hmem
    have hs : ((readTmm f).lookup tp).isSome := by
      rw [← dictContains_iff_lookup_isSome]
      exact (dictContains_iff_mem_keys _ _).mpr hk
    obtain ⟨md, hmd⟩ := Option.isSome_iff_exists.mp hs
    have hmm : (tp, md) ∈ readTmm f := mem_of_lookup_eq_some hmd
    have hname : md.name = tp := by
      unfold readTmm at hmm
      exact buildTopicMetadataMap_name_inv _ (tp, md) hmm
    refine ⟨md, ?_, ?_, hname⟩
    · rw [get_topic_metadata_read_eq, hmd]
    · rw [get_topic_type_read_eq, hmd]
      rfl

/-- C10: `get_topics_by_type` partitions the catalog: groups are non-empty,
every name in a group has exactly that group's key as its type, no name
occurs twice across (or within) groups, and the concatenation of all groups
has the same members as `get_topics`. -/
theorem topics_by_type_partitions (f : BagFile) :
    ∃ m ts, (Rosbag2.init f false).get_topics_by_type = .ok m ∧
      (Rosbag2.init f false).get_topics = .ok ts ∧
      (∀ p ∈ m, p.2 ≠ []) ∧
      (∀ p ∈ m, ∀ n ∈ p.2,
        (Rosbag2.init f false).get_topic_type n = .ok (some p.1)) ∧
      (m.map Prod.snd).flatten.Nodup ∧
      (∀ n, n ∈ (m.map Prod.snd).flatten ↔ n ∈ ts) := by
  have hnd : ((readTmm f).map Prod.fst).Nodup := by
    unfold readTmm
    exact buildTopicMetadataMap_keys_nodup _
  obtain ⟨hk, hperm⟩ :=
    tbt_foldl_keys_nodup_and_flatten_perm (readTmm f) [] (by simp)
  simp only [List.map_nil, List.flatten_nil, List.nil_append] at hperm
  have hcont := @tbt_foldl_content
    (fun n ty => ∃ md, (n, md) ∈ readTmm f ∧ md.type = ty)
    (readTmm f) [] (by simp) (fun q hq => ⟨q.2, hq, rfl⟩)
  refine ⟨_, _, get_topics_by_type_read_eq f, get_topics_read_eq f, ?_, ?_, ?_, ?_⟩
  · exact tbt_foldl_groups_ne_nil _ _ (by simp)
  · intro p hp n hn
    obtain ⟨md, hmm, hty⟩ := hcont p hp n hn
    have hl : (readTmm f).lookup n = some md := lookup_eq_some_of_mem_nodup hnd hmm
    rw [get_topic_type_read_eq, hl, hty.symm]
    rfl
  · exact hperm.nodup_iff.mpr hnd
  · intro n
    rw [List.mem_mergeSort]
    exact hperm.mem_iff

end Rosbag2Model
